import Mathlib

/-!
Verification of the devkit persistent store and danger classifier
(src/devkit/storage.py and src/devkit/rollback.py), shallowly embedded.
Python strings are modelled as lists of characters; JSON files on disk are
modelled by an explicit file state (absent, unparsable, or parsed content);
the current clock reading (datetime.now().isoformat()) is passed in as an
explicit argument.  Python str.lower is modelled by its action on ASCII.
-/

namespace DevKit

/-- State of one JSON document on disk: file missing, file present but
unparsable (json.JSONDecodeError on load), or successfully parsed content. -/
inductive FileState (α : Type) where
  | absent
  | corrupt
  | stored (val : α)
deriving DecidableEq, Repr

/-- One history entry, as built by storage.py log_command: a dict with keys
timestamp, command, output, exit_code. -/
structure HistoryEntry where
  timestamp : List Char
  command : List Char
  output : List Char
  exit_code : Int
deriving DecidableEq, Repr

/-- Minimal JSON scalar values, enough for the config document. -/
inductive JVal where
  | null
  | bool (b : Bool)
  | num (n : Int)
  | str (s : List Char)
deriving DecidableEq, Repr

/-- Association-list lookup by name, modelling Python dict indexing for the
string-keyed JSON objects of this program. -/
def lookupName {α : Type} (n : List Char) : List (List Char × α) → Option α
  | [] => none
  | (m, v) :: rest => if n = m then some v else lookupName n rest

/-- Lowercasing of a string, modelling Python str.lower on ASCII text. -/
def lowerStr (s : List Char) : List Char := s.map Char.toLower

/-- Decides whether the first list is an initial segment of the second. -/
def startsWithL : List Char → List Char → Bool
  | [], _ => true
  | _ :: _, [] => false
  | a :: n, b :: h => a == b && startsWithL n h

/-- Substring containment: containsSub n h models the Python expression
n in h on strings. -/
def containsSub (n : List Char) : List Char → Bool
  | [] => startsWithL n []
  | b :: h => startsWithL n (b :: h) || containsSub n h

/-- rollback.py DANGEROUS_KEYWORDS, verbatim. -/
def DANGEROUS_KEYWORDS : List (List Char) :=
  ["deploy".data, "push".data, "delete".data, "drop".data, "rm".data, "remove".data,
   "prune".data, "migrate".data, "rollout".data, "apply".data, "destroy".data,
   "shutdown".data, "reboot".data, "kill".data, "force".data, "production".data,
   "prod".data, "master".data, "main".data]

/-- rollback.py is_dangerous_command: lowercase the command and test each
keyword for substring containment. -/
def is_dangerous_command (command : List Char) : Bool :=
  DANGEROUS_KEYWORDS.any fun keyword => containsSub keyword (lowerStr command)

/-- rollback.py find_recent_dangerous_commands, with the loaded history passed
in explicitly.  The Python slice history[-limit:] equals the whole list when
limit is 0 and the last limit elements otherwise (limit is a nonnegative int
at every call site). -/
def find_recent_dangerous (history : List HistoryEntry) (limit : Nat) : List HistoryEntry :=
  if history = [] then []
  else
    let recent := if limit = 0 then history else history.drop (history.length - limit)
    recent.filter fun e => is_dangerous_command e.command

/-- storage.py load_history: missing or unparsable file reads as the empty
history. -/
def load_history : FileState (List HistoryEntry) → List HistoryEntry
  | .absent => []
  | .corrupt => []
  | .stored h => h

/-- storage.py save_history: overwrites the file with the given list. -/
def save_history (h : List HistoryEntry) : FileState (List HistoryEntry) :=
  .stored h

/-- storage.py log_command: load the history, append an entry carrying the
current timestamp and the output truncated to its first 1000 characters, keep
only the last 100 entries when the result exceeds 100, write back. -/
def log_command (file : FileState (List HistoryEntry))
    (command : List Char) (output : List Char) (exit_code : Int)
    (now : List Char) : FileState (List HistoryEntry) :=
  let history := load_history file
  let entry : HistoryEntry :=
    { timestamp := now, command := command, output := output.take 1000,
      exit_code := exit_code }
  let history2 := history ++ [entry]
  let history3 :=
    if history2.length > 100 then history2.drop (history2.length - 100) else history2
  save_history history3

/-- Arguments of one log_command call: command, output, exit code, and the
clock reading at that call. -/
abbrev LogCall : Type := List Char × List Char × Int × List Char

/-- The entry that log_command builds from one call. -/
def mkEntry : LogCall → HistoryEntry
  | (c, o, x, t) =>
    { timestamp := t, command := c, output := o.take 1000, exit_code := x }

/-- Iterated log_command calls against the history file. -/
def runLog : FileState (List HistoryEntry) → List LogCall → FileState (List HistoryEntry)
  | f, [] => f
  | f, (c, o, x, t) :: rest => runLog (log_command f c o x t) rest

/-- The chronological tail of at most 100 entries, the shape log_command
leaves behind. -/
def tailTrunc {α : Type} (l : List α) : List α := l.drop (l.length - 100)

/-- The default config dict returned by storage.py load_config when the
config file is missing. -/
def default_config : List (List Char × JVal) :=
  [("api_key".data, JVal.null), ("time_travel_enabled".data, JVal.bool true),
   ("max_history".data, JVal.num 100)]

/-- storage.py load_config: the full default dict when the file is missing,
the empty dict when the file is unparsable, otherwise the parsed content. -/
def load_config : FileState (List (List Char × JVal)) → List (List Char × JVal)
  | .absent => default_config
  | .corrupt => []
  | .stored d => d

/-- config.get of the api_key field, as consumed by get_api_key: a stored
string is returned, a missing key or a null reads as no key. -/
def config_api_key (config : List (List Char × JVal)) : Option (List Char) :=
  match lookupName ("api_key".data) config with
  | some (JVal.str s) => some s
  | _ => none

/-- storage.py get_api_key: os.getenv of GEMINI_API_KEY is passed in as an
Option (none when the variable is unset).  The Python truthiness test
if api_key: falls through both when the variable is unset and when it is set
to the empty string. -/
def get_api_key (env : Option (List Char))
    (file : FileState (List (List Char × JVal))) : Option (List Char) :=
  match env with
  | some k => if k ≠ [] then some k else config_api_key (load_config file)
  | none => config_api_key (load_config file)

/-- A snippet record after load-time normalization. -/
structure Snippet where
  command : List Char
  tags : List (List Char)
  created : List Char
deriving DecidableEq, Repr

/-- One raw snippet value as parsed from the snippets document: either the
legacy bare string, or a structured object whose three fields may each be
missing. -/
inductive SnippetVal where
  | legacy (s : List Char)
  | record (command : Option (List Char)) (tags : Option (List (List Char)))
      (created : Option (List Char))
deriving DecidableEq, Repr

/-- The per-value normalization inside storage.py load_snippets: a legacy
string becomes a record with that command, no tags, and the current time as
creation timestamp; a structured value has each missing field defaulted. -/
def normalize_snippet (now : List Char) : SnippetVal → Snippet
  | .legacy s => { command := s, tags := [], created := now }
  | .record c t cr =>
    { command := c.getD [], tags := t.getD [], created := cr.getD now }

/-- storage.py load_snippets: empty mapping when the file is missing or
unparsable, otherwise every value normalized. -/
def load_snippets (file : FileState (List (List Char × SnippetVal)))
    (now : List Char) : List (List Char × Snippet) :=
  match file with
  | .absent => []
  | .corrupt => []
  | .stored data => data.map fun p => (p.1, normalize_snippet now p.2)

/-- storage.py save_snippets: the mapping is written in the structured shape,
every field present. -/
def save_snippets (snippets : List (List Char × Snippet)) :
    FileState (List (List Char × SnippetVal)) :=
  .stored (snippets.map fun p =>
    (p.1, SnippetVal.record (some p.2.command) (some p.2.tags) (some p.2.created)))

/-- The statistics computed by rollback.py show_dangerous_patterns before
printing: totals, percentage, and the per-keyword frequency dict (modelled as
a total function that is 0 outside the dict). -/
structure DangerStats where
  total : Nat
  dangerousCount : Nat
  percentage : ℚ
  keywordFrequency : List Char → Nat

/-- One dict increment keyword_counts[k] = keyword_counts.get(k, 0) + 1. -/
def bump (d : List Char → Nat) (k : List Char) : List Char → Nat :=
  fun x => if x = k then d k + 1 else d x

/-- The body of the keyword loop in show_dangerous_patterns for one history
entry: when the entry is dangerous, every keyword contained in the lowercased
command has its count incremented. -/
def kw_step (acc : List Char → Nat) (entry : HistoryEntry) : List Char → Nat :=
  if is_dangerous_command entry.command then
    DANGEROUS_KEYWORDS.foldl
      (fun acc2 kw =>
        if containsSub kw (lowerStr entry.command) then bump acc2 kw else acc2)
      acc
  else acc

/-- rollback.py show_dangerous_patterns, its computed values collected into a
record: dangerous count by a linear scan, percentage guarded against an empty
history, keyword counts by the nested loop over dangerous entries. -/
def compute_danger_statistics (history : List HistoryEntry) : DangerStats :=
  let dangerous_count := history.countP fun e => is_dangerous_command e.command
  let total_count := history.length
  let percentage : ℚ :=
    if total_count > 0 then (dangerous_count : ℚ) / (total_count : ℚ) * 100 else 0
  let keyword_counts := history.foldl kw_step fun _ => 0
  { total := total_count, dangerousCount := dangerous_count,
    percentage := percentage, keywordFrequency := keyword_counts }

/-- The three files managed by storage.py. -/
structure Store where
  snippets_file : FileState (List (List Char × SnippetVal))
  history_file : FileState (List HistoryEntry)
  config_file : FileState (List (List Char × JVal))

/-- log_command acting on the whole store: storage.py log_command reads and
writes only HISTORY_FILE and never consults the config document. -/
def log_command_store (s : Store) (command output : List Char) (exit_code : Int)
    (now : List Char) : Store :=
  { s with history_file := log_command s.history_file command output exit_code now }

/-- A concrete dangerous history entry, used as test data. -/
def pushEntry : HistoryEntry :=
  { timestamp := ("t0".data), command := ("git push".data), output := [], exit_code := 0 }

/-- startsWithL decides the initial-segment relation. -/
theorem startsWithL_iff (n h : List Char) : startsWithL n h = true ↔ n <+: h := by
  induction n generalizing h with
  | nil => simp [startsWithL]
  | cons a as ih =>
    cases h with
    | nil => simp [startsWithL]
    | cons b bs =>
      simp [startsWithL, List.cons_prefix_cons, ih, Bool.and_eq_true, beq_iff_eq]

/-- containsSub decides the substring relation. -/
theorem containsSub_iff (n h : List Char) : containsSub n h = true ↔ n <:+: h := by
  induction h with
  | nil => simp [containsSub, startsWithL_iff]
  | cons b bs ih =>
    simp [containsSub, Bool.or_eq_true, startsWithL_iff, ih, List.infix_cons_iff]

/-- C3: is_dangerous_command holds exactly when some keyword of the fixed list
occurs as a substring of the lowercased command; in particular the command
git push origin main is classified dangerous and ls -la is not. -/
theorem C3_dangerous_iff_keyword_substring :
    (∀ command : List Char,
        is_dangerous_command command = true ↔
          ∃ k ∈ DANGEROUS_KEYWORDS, k <:+: lowerStr command) ∧
      is_dangerous_command ("git push origin main".data) = true ∧
      is_dangerous_command ("ls -la".data) = false := by
  refine ⟨fun command => ?_, by decide, by decide⟩
  simp [is_dangerous_command, List.any_eq_true, containsSub_iff]

/-- C9: with limit 0 the Python slice history[-0:] is the whole list, so
find_recent_dangerous filters the entire history instead of an empty tail. -/
theorem C9_limit_zero_filters_whole_history (history : List HistoryEntry) :
    find_recent_dangerous history 0
      = history.filter fun e => is_dangerous_command e.command := by
  by_cases h : history = [] <;> simp [find_recent_dangerous, h]

/-- C4 counterexample: the claim quantifies over every limit, but at limit 0
the result is not the filtered 0-entry tail (which would be empty). -/
theorem C4_counterexample_limit_zero :
    find_recent_dangerous [pushEntry] 0
      ≠ (List.rtake [pushEntry] 0).filter fun e => is_dangerous_command e.command := by
  decide

/-- C4 (amended to positive limits): for limit at least 1,
find_recent_dangerous is the filter of the chronological tail of limit
entries; hence it has at most limit entries, every one of them dangerous, and
it is a sublist of the history (original relative order preserved). -/
theorem C4_tail_filter (history : List HistoryEntry) (limit : Nat) (h : 1 ≤ limit) :
    find_recent_dangerous history limit
        = (history.rtake limit).filter (fun e => is_dangerous_command e.command) ∧
      (find_recent_dangerous history limit).length ≤ limit ∧
      (∀ e ∈ find_recent_dangerous history limit, is_dangerous_command e.command = true) ∧
      List.Sublist (find_recent_dangerous history limit) history := by
  have hlim : limit ≠ 0 := by omega
  have heq : find_recent_dangerous history limit
      = (history.drop (history.length - limit)).filter
          (fun e => is_dangerous_command e.command) := by
    by_cases hh : history = []
    · subst hh; simp [find_recent_dangerous]
    · simp [find_recent_dangerous, hh, hlim]
  refine ⟨by rw [heq]; rfl, ?_, ?_, ?_⟩
  · rw [heq]
    calc ((history.drop (history.length - limit)).filter
            (fun e => is_dangerous_command e.command)).length
        ≤ (history.drop (history.length - limit)).length := List.length_filter_le _ _
      _ ≤ limit := by rw [List.length_drop]; omega
  · intro e he
    rw [heq] at he
    exact (List.mem_filter.mp he).2
  · rw [heq]
    exact (List.filter_sublist _).trans (List.drop_sublist _ _)

/-- C4 witness at a concrete history and limit 5. -/
theorem C4_tail_filter_witness :
    find_recent_dangerous [pushEntry] 5
        = (List.rtake [pushEntry] 5).filter (fun e => is_dangerous_command e.command) ∧
      (find_recent_dangerous [pushEntry] 5).length ≤ 5 ∧
      (∀ e ∈ find_recent_dangerous [pushEntry] 5, is_dangerous_command e.command = true) ∧
      List.Sublist (find_recent_dangerous [pushEntry] 5) [pushEntry] :=
  C4_tail_filter [pushEntry] 5 (by decide)

/-- C1 counterexample: on an unparsable config file, load_config returns the
empty dict, not the default Config (the default has time_travel_enabled set,
the empty dict has no keys at all). -/
theorem C1_counterexample_corrupt :
    load_config FileState.corrupt ≠ default_config := by
  decide

/-- C1 (amended): load_config returns the default Config (api_key null,
time_travel_enabled true, max_history 100) when the file is absent, but the
empty dict when the file is unparsable; in both cases it returns normally
rather than raising. -/
theorem C1_load_config_defaults :
    load_config FileState.absent = default_config ∧
      lookupName ("api_key".data) (load_config FileState.absent) = some JVal.null ∧
      lookupName ("time_travel_enabled".data) (load_config FileState.absent)
        = some (JVal.bool true) ∧
      lookupName ("max_history".data) (load_config FileState.absent)
        = some (JVal.num 100) ∧
      load_config FileState.corrupt = [] := by
  decide

/-- C8 counterexample: with the environment variable set to the empty string
and an api_key in the config file, get_api_key returns the config value, so
the set environment variable does not take precedence. -/
theorem C8_counterexample_empty_env :
    get_api_key (some ("".data)) (FileState.stored [(("api_key".data), JVal.str ("key1".data))])
        = some ("key1".data) ∧
      some ("key1".data) ≠ some ("".data) := by
  decide

/-- C8 (amended): the environment variable takes precedence exactly when it
is set to a non-empty string; when it is unset, and likewise when it is set
to the empty string, get_api_key falls back to the api_key value of the
loaded config. -/
theorem C8_env_precedence (v : List Char) (file : FileState (List (List Char × JVal))) :
    (v ≠ [] → get_api_key (some v) file = some v) ∧
      get_api_key none file = config_api_key (load_config file) ∧
      get_api_key (some []) file = config_api_key (load_config file) := by
  refine ⟨fun hv => ?_, rfl, rfl⟩
  simp [get_api_key, hv]

/-- C8 witness at a concrete non-empty environment value. -/
theorem C8_env_precedence_witness :
    get_api_key (some ("k".data)) FileState.absent = some ("k".data) :=
  (C8_env_precedence ("k".data) FileState.absent).1 (by decide)

/-- tailTrunc keeps at most 100 entries. -/
theorem tailTrunc_length_le {α : Type} (l : List α) : (tailTrunc l).length ≤ 100 := by
  unfold tailTrunc
  rw [List.length_drop]
  omega

/-- tailTrunc of a list of at most 100 entries is the list itself. -/
theorem tailTrunc_of_length_le {α : Type} (l : List α) (h : l.length ≤ 100) :
    tailTrunc l = l := by
  unfold tailTrunc
  have h0 : l.length - 100 = 0 := by omega
  simp [h0]

/-- Material in front of a block of at least 100 entries never survives
tailTrunc. -/
theorem tailTrunc_append {α : Type} (x y : List α) (h : 100 ≤ y.length) :
    tailTrunc (x ++ y) = tailTrunc y := by
  unfold tailTrunc
  rw [List.length_append]
  have h2 : x.length + y.length - 100 = x.length + (y.length - 100) := by omega
  rw [h2, List.drop_append]

/-- Truncating before appending gives the same tail as truncating once at the
end. -/
theorem tailTrunc_tailTrunc_append {α : Type} (l m : List α) :
    tailTrunc (tailTrunc l ++ m) = tailTrunc (l ++ m) := by
  by_cases hl : l.length ≤ 100
  · rw [tailTrunc_of_length_le l hl]
  · have hsplit : l = l.take (l.length - 100) ++ tailTrunc l :=
      (List.take_append_drop _ l).symm
    have h100 : 100 ≤ (tailTrunc l ++ m).length := by
      rw [List.length_append]
      unfold tailTrunc
      rw [List.length_drop]
      omega
    calc tailTrunc (tailTrunc l ++ m)
        = tailTrunc (l.take (l.length - 100) ++ (tailTrunc l ++ m)) :=
          (tailTrunc_append _ _ h100).symm
      _ = tailTrunc ((l.take (l.length - 100) ++ tailTrunc l) ++ m) := by
          rw [List.append_assoc]
      _ = tailTrunc (l ++ m) := by rw [← hsplit]

/-- One log_command call stores the truncated tail of the previous history
extended by the new entry. -/
theorem load_log_command (f : FileState (List HistoryEntry)) (c o : List Char)
    (x : Int) (t : List Char) :
    load_history (log_command f c o x t)
      = tailTrunc (load_history f ++ [mkEntry (c, o, x, t)]) := by
  have hls : ∀ h : List HistoryEntry, load_history (FileState.stored h) = h := fun _ => rfl
  simp only [log_command, save_history, hls, tailTrunc, mkEntry]
  split_ifs with h
  · rfl
  · have h0 : (load_history f ++
        [({ timestamp := t, command := c, output := o.take 1000,
            exit_code := x } : HistoryEntry)]).length - 100 = 0 := by
      simp only [not_lt] at h
      omega
    rw [h0, List.drop_zero]

/-- Running at least one log_command call stores the truncated tail of the
initial history extended by the entries of all calls, in call order. -/
theorem load_runLog_cons (rest : List LogCall) :
    ∀ (f : FileState (List HistoryEntry)) (q : LogCall),
      load_history (runLog f (q :: rest))
        = tailTrunc (load_history f ++ (q :: rest).map mkEntry) := by
  induction rest with
  | nil =>
    intro f q
    obtain ⟨c, o, x, t⟩ := q
    simpa [runLog] using load_log_command f c o x t
  | cons q2 rest2 ih =>
    intro f q
    obtain ⟨c, o, x, t⟩ := q
    have h1 : runLog f ((c, o, x, t) :: q2 :: rest2)
        = runLog (log_command f c o x t) (q2 :: rest2) := rfl
    rw [h1, ih (log_command f c o x t) q2, load_log_command,
      tailTrunc_tailTrunc_append]
    simp [List.append_assoc]

/-- C2: after any positive number of log_command calls, from any starting
history state, the stored history is exactly the chronological tail (at most
the last 100 entries, oldest dropped first, insertion order preserved) of the
initial history followed by the new entries, and so has at most 100
entries. -/
theorem C2_history_bound (f : FileState (List HistoryEntry)) (calls : List LogCall)
    (h : calls ≠ []) :
    load_history (runLog f calls)
        = tailTrunc (load_history f ++ calls.map mkEntry) ∧
      (load_history (runLog f calls)).length ≤ 100 := by
  obtain ⟨q, rest, rfl⟩ := List.exists_cons_of_ne_nil h
  refine ⟨load_runLog_cons rest f q, ?_⟩
  rw [load_runLog_cons rest f q]
  exact tailTrunc_length_le _

/-- C2 witness: one concrete call against an absent history file. -/
theorem C2_history_bound_witness :
    load_history (runLog FileState.absent [(("ls".data), [], 0, ("t1".data))])
        = tailTrunc (load_history FileState.absent
            ++ List.map mkEntry [(("ls".data), [], 0, ("t1".data))]) ∧
      (load_history
          (runLog FileState.absent [(("ls".data), [], 0, ("t1".data))])).length ≤ 100 :=
  C2_history_bound FileState.absent [(("ls".data), [], 0, ("t1".data))]
    (List.cons_ne_nil _ _)

/-- C7: the entry appended by log_command is the last entry of the stored
history; it carries the given command and exit code, the current timestamp,
and the output truncated to its first 1000 characters — the full output when
it has at most 1000 characters. -/
theorem C7_logged_entry (f : FileState (List HistoryEntry)) (c o : List Char) (x : Int)
    (now : List Char) :
    (load_history (log_command f c o x now)).getLast?
        = some { timestamp := now, command := c, output := o.take 1000, exit_code := x } ∧
      (o.length ≤ 1000 →
        (load_history (log_command f c o x now)).getLast?
          = some { timestamp := now, command := c, output := o, exit_code := x }) := by
  have h1 : (load_history (log_command f c o x now)).getLast?
      = some (mkEntry (c, o, x, now)) := by
    rw [load_log_command]
    unfold tailTrunc
    rw [List.drop_append_of_le_length (by
      simp only [List.length_append, List.length_singleton]
      omega)]
    simp
  refine ⟨h1, fun ho => ?_⟩
  rw [h1]
  have h2 : o.take 1000 = o := List.take_of_length_le ho
  simp [mkEntry, h2]

/-- C7 witness: concrete call with a short output. -/
theorem C7_logged_entry_witness :
    (load_history
        (log_command FileState.absent ("ls".data) ("out".data) 0 ("t1".data))).getLast?
      = some { timestamp := ("t1".data), command := ("ls".data),
               output := ("out".data), exit_code := 0 } :=
  (C7_logged_entry FileState.absent ("ls".data) ("out".data) 0 ("t1".data)).2 (by decide)

/-- C10: log_command never consults the config document, so two runs whose
history files agree produce identical history files whatever their stored
max_history values are, and the stored history is capped at the hard-coded
100 regardless of the config. -/
theorem C10_cap_ignores_config (s1 s2 : Store) (c o : List Char) (x : Int) (t : List Char)
    (h : s1.history_file = s2.history_file) :
    (log_command_store s1 c o x t).history_file
        = (log_command_store s2 c o x t).history_file ∧
      (load_history (log_command_store s1 c o x t).history_file).length ≤ 100 := by
  constructor
  · simp [log_command_store, h]
  · have h1 : (log_command_store s1 c o x t).history_file
        = log_command s1.history_file c o x t := rfl
    rw [h1, load_log_command]
    exact tailTrunc_length_le _

/-- C10 witness: two stores identical except for stored max_history values of
5 and 500. -/
theorem C10_cap_ignores_config_witness :
    (log_command_store
        { snippets_file := FileState.absent, history_file := FileState.absent,
          config_file := FileState.stored [(("max_history".data), JVal.num 5)] }
        ("ls".data) [] 0 ("t1".data)).history_file
      = (log_command_store
        { snippets_file := FileState.absent, history_file := FileState.absent,
          config_file := FileState.stored [(("max_history".data), JVal.num 500)] }
        ("ls".data) [] 0 ("t1".data)).history_file :=
  (C10_cap_ignores_config _ _ _ _ _ _ rfl).1

/-- Value of the keyword-counting inner loop at one key, for a duplicate-free
keyword list: the count at a listed keyword rises by one exactly when that
keyword occurs in the command. -/
theorem kw_inner_fold (cmd : List Char) :
    ∀ (kws : List (List Char)), kws.Nodup →
      ∀ (acc : List Char → Nat) (k : List Char),
        (kws.foldl (fun a kw => if containsSub kw cmd then bump a kw else a) acc) k
          = acc k + (if k ∈ kws ∧ containsSub k cmd = true then 1 else 0) := by
  intro kws
  induction kws with
  | nil => intro _ acc k; simp
  | cons kw rest ih =>
    intro hnd acc k
    rw [List.nodup_cons] at hnd
    obtain ⟨hkw, hrest⟩ := hnd
    simp only [List.foldl_cons]
    rw [ih hrest]
    by_cases hck : containsSub kw cmd = true
    · rw [if_pos hck]
      by_cases hk : k = kw
      · subst hk
        simp [bump, hkw, hck]
      · simp [bump, hk, List.mem_cons]
    · rw [if_neg hck]
      by_cases hk : k = kw
      · subst hk
        simp [hck]
      · simp [hk, List.mem_cons]

/-- Value of the whole keyword-counting loop at a listed keyword: the number
of dangerous history entries whose lowercased command contains it. -/
theorem kw_outer_fold (k : List Char) (hk : k ∈ DANGEROUS_KEYWORDS) :
    ∀ (history : List HistoryEntry) (acc : List Char → Nat),
      (history.foldl kw_step acc) k
        = acc k + ((history.filter fun e => is_dangerous_command e.command).countP
            fun e => containsSub k (lowerStr e.command)) := by
  intro history
  induction history with
  | nil => intro acc; simp
  | cons e rest ih =>
    intro acc
    have hnd : DANGEROUS_KEYWORDS.Nodup := by decide
    rw [List.foldl_cons, ih]
    by_cases hd : is_dangerous_command e.command = true
    · have h1 : (kw_step acc e) k
          = acc k + (if k ∈ DANGEROUS_KEYWORDS ∧ containsSub k (lowerStr e.command) = true
              then 1 else 0) := by
        unfold kw_step
        rw [if_pos hd]
        exact kw_inner_fold (lowerStr e.command) DANGEROUS_KEYWORDS hnd acc k
      rw [h1]
      by_cases hc : containsSub k (lowerStr e.command) = true
      · simp [List.filter_cons, List.countP_cons, hd, hc, hk]
        omega
      · simp [List.filter_cons, List.countP_cons, hd, hc, hk]
    · have h1 : (kw_step acc e) k = acc k := by
        unfold kw_step
        rw [if_neg hd]
      rw [h1]
      simp [List.filter_cons, hd]

/-- C5: the statistics pass returns the history length as total, the number
of dangerous entries as dangerousCount, the percentage dangerousCount over
total times 100 (0 on an empty history, with no division error), and a
keyword frequency that counts, for each keyword of the fixed list, the
dangerous entries whose lowercased command contains it. -/
theorem C5_statistics (history : List HistoryEntry) :
    (compute_danger_statistics history).total = history.length ∧
      (compute_danger_statistics history).dangerousCount
        = (history.filter fun e => is_dangerous_command e.command).length ∧
      (compute_danger_statistics history).percentage
        = ((compute_danger_statistics history).dangerousCount : ℚ)
            / ((compute_danger_statistics history).total : ℚ) * 100 ∧
      (history = [] → (compute_danger_statistics history).percentage = 0) ∧
      (∀ k ∈ DANGEROUS_KEYWORDS,
        (compute_danger_statistics history).keywordFrequency k
          = ((history.filter fun e => is_dangerous_command e.command).countP
              fun e => containsSub k (lowerStr e.command))) := by
  refine ⟨rfl, List.countP_eq_length_filter _ _, ?_, ?_, ?_⟩
  · by_cases ht : history.length > 0
    · simp [compute_danger_statistics, ht]
    · have h0 : history.length = 0 := by omega
      simp [compute_danger_statistics, h0]
  · intro h
    subst h
    simp [compute_danger_statistics]
  · intro k hk
    have h1 : (compute_danger_statistics history).keywordFrequency
        = history.foldl kw_step fun _ => 0 := rfl
    rw [h1, kw_outer_fold k hk history fun _ => 0]
    exact Nat.zero_add _

/-- C5 witness: one dangerous entry, evaluated. -/
theorem C5_statistics_witness :
    (compute_danger_statistics []).percentage = 0 ∧
      (compute_danger_statistics [pushEntry]).keywordFrequency ("push".data)
        = (([pushEntry].filter fun e => is_dangerous_command e.command).countP
            fun e => containsSub ("push".data) (lowerStr e.command)) :=
  ⟨(C5_statistics []).2.2.2.1 rfl,
    (C5_statistics [pushEntry]).2.2.2.2 ("push".data) (by decide)⟩

/-- lookupName commutes with mapping over the values of an association
list. -/
theorem lookupName_map {α β : Type} (f : α → β) (n : List Char) :
    ∀ data : List (List Char × α),
      lookupName n (data.map fun p => (p.1, f p.2)) = (lookupName n data).map f := by
  intro data
  induction data with
  | nil => rfl
  | cons p rest ih =>
    obtain ⟨m, v⟩ := p
    by_cases h : n = m
    · simp [lookupName, h]
    · simp [lookupName, h, ih]

/-- Saving then loading snippets restores the mapping exactly: every stored
field is present, so each load-time default is bypassed. -/
theorem load_save_snippets (m : List (List Char × Snippet)) (now : List Char) :
    load_snippets (save_snippets m) now = m := by
  simp only [save_snippets, load_snippets, List.map_map]
  have hfg : ((fun p : List Char × SnippetVal => (p.1, normalize_snippet now p.2)) ∘
      fun p : List Char × Snippet =>
        (p.1, SnippetVal.record (some p.2.command) (some p.2.tags) (some p.2.created)))
      = id := rfl
  rw [hfg, List.map_id]

/-- C6: saving then loading yields, for every name, a record with the same
command text as saved; and loading a document with a legacy string value
yields a record whose command is that string, whose tag set is empty, and
whose created field is the current timestamp passed to the load. -/
theorem C6_snippet_roundtrip :
    (∀ (m : List (List Char × Snippet)) (now n : List Char),
        (lookupName n (load_snippets (save_snippets m) now)).map Snippet.command
          = (lookupName n m).map Snippet.command) ∧
      (∀ (doc : List (List Char × SnippetVal)) (now n s : List Char),
        lookupName n doc = some (SnippetVal.legacy s) →
          lookupName n (load_snippets (FileState.stored doc) now)
            = some { command := s, tags := [], created := now }) := by
  constructor
  · intro m now n
    rw [load_save_snippets m now]
  · intro doc now n s hlk
    have h1 : lookupName n (load_snippets (FileState.stored doc) now)
        = (lookupName n doc).map (normalize_snippet now) :=
      lookupName_map (normalize_snippet now) n doc
    rw [h1, hlk]
    rfl

/-- C6 witness: a one-snippet mapping round-trips, and a legacy document
normalizes. -/
theorem C6_snippet_roundtrip_witness :
    (lookupName ("a".data)
        (load_snippets
          (save_snippets
            [(("a".data),
              { command := ("x".data), tags := [], created := ("t0".data) })])
          ("t1".data))).map Snippet.command
        = some ("x".data) ∧
      lookupName ("a".data)
          (load_snippets (FileState.stored [(("a".data), SnippetVal.legacy ("y".data))])
            ("t1".data))
        = some { command := ("y".data), tags := [], created := ("t1".data) } :=
  ⟨(C6_snippet_roundtrip.1
      [(("a".data), { command := ("x".data), tags := [], created := ("t0".data) })]
      ("t1".data) ("a".data)).trans (by decide),
    C6_snippet_roundtrip.2 [(("a".data), SnippetVal.legacy ("y".data))]
      ("t1".data) ("a".data) ("y".data) (by decide)⟩

end DevKit
